import Mathlib

/-!
Shallow embedding of `plenum/server/models.py`: the vote-tracking model
objects of the Plenum protocol (`TrackedMsgs` and its subclasses
`Prepares`, `Commits`, `InstanceChanges`), together with proofs of the
specified properties.

A Python `dict` registry is embedded as a function from keys to
`Option` records; Python `set` of voter names is a `Finset String`.
A Python exception raised by an operation is embedded as the operation
returning `none`.
-/

namespace Plenum

/-- Voter identities are node/replica names (`str` in the source). -/
abbrev Voter := String

/-- `ThreePhaseVotes` named tuple: a record holding the set of voters. -/
structure ThreePhaseVotes where
  voters : Finset Voter
deriving DecidableEq

/-- `InsChgVotes` named tuple: a view number together with the set of voters. -/
structure InsChgVotes where
  viewNo : Int
  voters : Finset Voter
deriving DecidableEq

/-- A PREPARE message, restricted to the fields `models.py` reads. -/
structure Prepare where
  viewNo : Int
  ppSeqNo : Int
deriving DecidableEq

/-- A COMMIT message, restricted to the fields `models.py` reads. -/
structure Commit where
  viewNo : Int
  ppSeqNo : Int
deriving DecidableEq

/-- An instance-change vote message, restricted to the field `models.py` reads. -/
structure InstanceChangeMsg where
  viewNo : Int
deriving DecidableEq

/-- The key argument of the `InstanceChanges` operations: either a raw
view number (`int`) or a vote message carrying a view number. -/
inductive ICInput where
  | raw (v : Int)
  | msg (m : InstanceChangeMsg)
deriving DecidableEq

/-- The `dict` state of a tracker: a partial map from keys to records. -/
def Registry (κ ρ : Type) := κ → Option ρ

/-- The empty registry (a freshly constructed tracker). -/
def emptyReg {κ ρ : Type} : Registry κ ρ := fun _ => none

/-- `self[key] = r`: point update of the registry. -/
def updateReg {κ ρ : Type} [DecidableEq κ] (reg : Registry κ ρ) (key : κ) (r : ρ) :
    Registry κ ρ :=
  fun k => if k = key then some r else reg k

/-- The abstract methods a `TrackedMsgs` subclass supplies (`getKey`,
`newVoteMsg`) together with the record operations the base class uses
(`.voters` access and `.voters.add`).  `newVoteMsg` returns `none` when
the Python method would raise (attribute access on a raw `int`). -/
structure TrackerOps (μ κ ρ : Type) where
  getKey : μ → κ
  newVoteMsg : μ → Option ρ
  voters : ρ → Finset Voter
  addVoter : ρ → Voter → ρ

variable {μ κ ρ : Type}

/-- `TrackedMsgs.addMsg`: create the record if the key is absent, then add
the voter to the record's voter set. Returns `none` exactly when
`newVoteMsg` raises on an absent key. -/
def addMsg [DecidableEq κ] (ops : TrackerOps μ κ ρ) (reg : Registry κ ρ)
    (m : μ) (voter : Voter) : Option (Registry κ ρ) :=
  match reg (ops.getKey m) with
  | some r => some (updateReg reg (ops.getKey m) (ops.addVoter r voter))
  | none =>
    match ops.newVoteMsg m with
    | some r0 => some (updateReg reg (ops.getKey m) (ops.addVoter r0 voter))
    | none => none

/-- `TrackedMsgs.hasMsg`: `key in self`. -/
def hasMsg (ops : TrackerOps μ κ ρ) (reg : Registry κ ρ) (m : μ) : Bool :=
  (reg (ops.getKey m)).isSome

/-- `TrackedMsgs.hasVote`: `key in self and voter in self[key].voters`. -/
def hasVote [DecidableEq κ] (ops : TrackerOps μ κ ρ) (reg : Registry κ ρ)
    (m : μ) (voter : Voter) : Bool :=
  match reg (ops.getKey m) with
  | some r => voter ∈ ops.voters r
  | none => false

/-- `TrackedMsgs.hasEnoughVotes`: `self.hasMsg(msg) and
len(self[key].voters) >= count` (the `and` short-circuits, so an absent
key is never dereferenced). -/
def hasEnoughVotes (ops : TrackerOps μ κ ρ) (reg : Registry κ ρ)
    (m : μ) (count : Nat) : Bool :=
  hasMsg ops reg m &&
    match reg (ops.getKey m) with
    | some r => count ≤ (ops.voters r).card
    | none => false

namespace Prepares

/-- The `Prepares` subclass methods: key `(viewNo, ppSeqNo)`, a fresh
`ThreePhaseVotes` with an empty voter set for a new key. -/
def ops : TrackerOps Prepare (Int × Int) ThreePhaseVotes where
  getKey := fun p => (p.viewNo, p.ppSeqNo)
  newVoteMsg := fun _ => some ⟨∅⟩
  voters := fun r => r.voters
  addVoter := fun r v => ⟨insert v r.voters⟩

/-- `Prepares.addVote`. -/
def addVote (reg : Registry (Int × Int) ThreePhaseVotes) (p : Prepare)
    (voter : Voter) : Option (Registry (Int × Int) ThreePhaseVotes) :=
  addMsg ops reg p voter

/-- `Prepares.hasPrepare`. -/
def hasPrepare (reg : Registry (Int × Int) ThreePhaseVotes) (p : Prepare) : Bool :=
  hasMsg ops reg p

/-- `Prepares.hasPrepareFrom`. -/
def hasPrepareFrom (reg : Registry (Int × Int) ThreePhaseVotes) (p : Prepare)
    (voter : Voter) : Bool :=
  hasVote ops reg p voter

/-- `Prepares.hasQuorum`: enough votes with threshold `2 * f`. -/
def hasQuorum (reg : Registry (Int × Int) ThreePhaseVotes) (p : Prepare)
    (f : Nat) : Bool :=
  hasEnoughVotes ops reg p (2 * f)

end Prepares

namespace Commits

/-- The `Commits` subclass methods: key `(viewNo, ppSeqNo)`, a fresh
`ThreePhaseVotes` with an empty voter set for a new key. -/
def ops : TrackerOps Commit (Int × Int) ThreePhaseVotes where
  getKey := fun c => (c.viewNo, c.ppSeqNo)
  newVoteMsg := fun _ => some ⟨∅⟩
  voters := fun r => r.voters
  addVoter := fun r v => ⟨insert v r.voters⟩

/-- `Commits.addVote`. -/
def addVote (reg : Registry (Int × Int) ThreePhaseVotes) (c : Commit)
    (voter : Voter) : Option (Registry (Int × Int) ThreePhaseVotes) :=
  addMsg ops reg c voter

/-- `Commits.hasCommit`. -/
def hasCommit (reg : Registry (Int × Int) ThreePhaseVotes) (c : Commit) : Bool :=
  hasMsg ops reg c

/-- `Commits.hasCommitFrom`. -/
def hasCommitFrom (reg : Registry (Int × Int) ThreePhaseVotes) (c : Commit)
    (voter : Voter) : Bool :=
  hasVote ops reg c voter

/-- `Commits.hasQuorum`: enough votes with threshold `2 * f + 1`. -/
def hasQuorum (reg : Registry (Int × Int) ThreePhaseVotes) (c : Commit)
    (f : Nat) : Bool :=
  hasEnoughVotes ops reg c (2 * f + 1)

end Commits

namespace InstanceChanges

/-- The `InstanceChanges` subclass methods.  `getKey` accepts a raw view
number or a message (`msg if isinstance(msg, int) else msg.viewNo`);
`newVoteMsg` reads `msg.viewNo`, which raises `AttributeError` on a raw
`int`, embedded as `none`. -/
def ops : TrackerOps ICInput Int InsChgVotes where
  getKey := fun m =>
    match m with
    | .raw v => v
    | .msg m => m.viewNo
  newVoteMsg := fun m =>
    match m with
    | .raw _ => none
    | .msg m => some ⟨m.viewNo, ∅⟩
  voters := fun r => r.voters
  addVoter := fun r v => ⟨r.viewNo, insert v r.voters⟩

/-- `InstanceChanges.addVote`. -/
def addVote (reg : Registry Int InsChgVotes) (m : ICInput)
    (voter : Voter) : Option (Registry Int InsChgVotes) :=
  addMsg ops reg m voter

/-- `InstanceChanges.hasView`. -/
def hasView (reg : Registry Int InsChgVotes) (m : ICInput) : Bool :=
  hasMsg ops reg m

/-- `InstanceChanges.hasInstChngFrom`. -/
def hasInstChngFrom (reg : Registry Int InsChgVotes) (m : ICInput)
    (voter : Voter) : Bool :=
  hasVote ops reg m voter

/-- `InstanceChanges.hasQuorum`: enough votes with threshold `2 * f + 1`. -/
def hasQuorum (reg : Registry Int InsChgVotes) (m : ICInput) (f : Nat) : Bool :=
  hasEnoughVotes ops reg m (2 * f + 1)

/-- `InstanceChanges.pop`: `super().pop(key, None)` — remove the record
for `key` if present, no-op otherwise. -/
def pop (reg : Registry Int InsChgVotes) (key : Int) : Registry Int InsChgVotes :=
  fun k => if k = key then none else reg k

end InstanceChanges

/-! ### Derived operation combinators -/

/-- `iterAdd ops n reg m x`: apply `addMsg` for the same message and voter
`n` times in sequence (a raised exception aborts the sequence). -/
def iterAdd [DecidableEq κ] (ops : TrackerOps μ κ ρ) :
    Nat → Registry κ ρ → μ → Voter → Option (Registry κ ρ)
  | 0, reg, _, _ => some reg
  | n + 1, reg, m, x =>
    (addMsg ops reg m x).bind fun reg' => iterAdd ops n reg' m x

/-- Apply a sequence of `addMsg` operations (arbitrary messages and
voters) in order. -/
def applySeq [DecidableEq κ] (ops : TrackerOps μ κ ρ) :
    Registry κ ρ → List (μ × Voter) → Option (Registry κ ρ)
  | reg, [] => some reg
  | reg, (m, x) :: rest =>
    (addMsg ops reg m x).bind fun reg' => applySeq ops reg' rest

/-- States of an add-only tracker reachable from the empty registry via
the public mutating operation (`addVote`, i.e. `addMsg`); steps that
raise do not produce a state. -/
inductive ReachableAdd [DecidableEq κ] (ops : TrackerOps μ κ ρ) :
    Registry κ ρ → Prop where
  | empty : ReachableAdd ops emptyReg
  | add {reg reg' : Registry κ ρ} {m : μ} {x : Voter} :
      ReachableAdd ops reg → addMsg ops reg m x = some reg' →
      ReachableAdd ops reg'

/-- States of the `InstanceChanges` tracker reachable from the empty
registry via `addVote` and `pop`. -/
inductive ICReachable : Registry Int InsChgVotes → Prop where
  | empty : ICReachable emptyReg
  | add {reg reg' : Registry Int InsChgVotes} {m : ICInput} {x : Voter} :
      ICReachable reg → InstanceChanges.addVote reg m x = some reg' →
      ICReachable reg'
  | pop {reg : Registry Int InsChgVotes} (v : Int) :
      ICReachable reg → ICReachable (InstanceChanges.pop reg v)

/-! ### Sample states used by witnesses -/

/-- A registry holding a single record for key `(1, 5)` with one voter. -/
def sampleP1 : Registry (Int × Int) ThreePhaseVotes :=
  updateReg emptyReg (1, 5) ⟨{"A"}⟩

/-- A registry holding a single record for key `(1, 5)` with two voters. -/
def sampleP2 : Registry (Int × Int) ThreePhaseVotes :=
  updateReg emptyReg (1, 5) ⟨{"A", "B"}⟩

/-- A registry holding a single record for key `(1, 5)` with three voters. -/
def sampleP3 : Registry (Int × Int) ThreePhaseVotes :=
  updateReg emptyReg (1, 5) ⟨{"A", "B", "C"}⟩

/-- The registry after one Prepare vote from `"A"` on the empty registry. -/
def sampleP1' : Registry (Int × Int) ThreePhaseVotes :=
  updateReg emptyReg (1, 5) ⟨insert "A" ∅⟩

/-- The registry after one instance-change vote from `"A"` for view `7`
on the empty registry. -/
def sampleIC1' : Registry Int InsChgVotes :=
  updateReg emptyReg 7 ⟨7, insert "A" ∅⟩

/-- `sampleP2` after one further Prepare vote on the distinct key `(2, 9)`. -/
def sampleP2' : Registry (Int × Int) ThreePhaseVotes :=
  updateReg sampleP2 (2, 9) ⟨insert "C" ∅⟩

/-- An instance-change registry with a record for view `7` with two voters. -/
def sampleIC2 : Registry Int InsChgVotes :=
  updateReg emptyReg 7 ⟨7, {"A", "B"}⟩

/-- An instance-change registry with a record for view `7` with three voters. -/
def sampleIC3 : Registry Int InsChgVotes :=
  updateReg emptyReg 7 ⟨7, {"A", "B", "C"}⟩

/-- `sampleIC2` after discarding view `7` and re-adding a single vote. -/
def sampleIC2popAdd : Registry Int InsChgVotes :=
  updateReg (InstanceChanges.pop sampleIC2 7) 7 ⟨7, insert "Z" ∅⟩

/-! ### Helper lemmas -/

theorem updateReg_self {κ ρ : Type} [DecidableEq κ] (reg : Registry κ ρ)
    (key : κ) (r : ρ) : updateReg reg key r key = some r := by
  simp [updateReg]

theorem updateReg_ne {κ ρ : Type} [DecidableEq κ] (reg : Registry κ ρ)
    (key k : κ) (r : ρ) (h : k ≠ key) : updateReg reg key r k = reg k := by
  simp [updateReg, h]

theorem updateReg_updateReg {κ ρ : Type} [DecidableEq κ] (reg : Registry κ ρ)
    (key : κ) (a b : ρ) :
    updateReg (updateReg reg key a) key b = updateReg reg key b := by
  funext k
  by_cases h : k = key <;> simp [updateReg, h]

theorem hasEnoughVotes_iff {μ κ ρ : Type} [DecidableEq κ]
    (ops : TrackerOps μ κ ρ) (reg : Registry κ ρ) (m : μ) (count : Nat) :
    hasEnoughVotes ops reg m count = true ↔
      ∃ r, reg (ops.getKey m) = some r ∧ count ≤ (ops.voters r).card := by
  cases h : reg (ops.getKey m) <;> simp [hasEnoughVotes, hasMsg, h]

theorem addMsg_idem {μ κ ρ : Type} [DecidableEq κ] (ops : TrackerOps μ κ ρ)
    (Hidem : ∀ r x, ops.addVoter (ops.addVoter r x) x = ops.addVoter r x)
    {reg reg' : Registry κ ρ} {m : μ} {x : Voter}
    (h : addMsg ops reg m x = some reg') : addMsg ops reg' m x = some reg' := by
  cases hk : reg (ops.getKey m) with
  | some r =>
    have h' : reg' = updateReg reg (ops.getKey m) (ops.addVoter r x) := by
      rw [addMsg, hk] at h
      exact (Option.some.inj h).symm
    subst h'
    rw [addMsg, updateReg_self]
    simp only [updateReg_updateReg, Hidem]
  | none =>
    cases hn : ops.newVoteMsg m with
    | none =>
      rw [addMsg, hk, hn] at h
      exact absurd h (by simp)
    | some r0 =>
      have h' : reg' = updateReg reg (ops.getKey m) (ops.addVoter r0 x) := by
        rw [addMsg, hk, hn] at h
        exact (Option.some.inj h).symm
      subst h'
      rw [addMsg, updateReg_self]
      simp only [updateReg_updateReg, Hidem]

theorem iterAdd_succ {μ κ ρ : Type} [DecidableEq κ] (ops : TrackerOps μ κ ρ)
    (Hidem : ∀ r x, ops.addVoter (ops.addVoter r x) x = ops.addVoter r x) :
    ∀ (n : Nat) (reg : Registry κ ρ) (m : μ) (x : Voter),
      iterAdd ops (n + 1) reg m x = addMsg ops reg m x := by
  intro n
  induction n with
  | zero =>
    intro reg m x
    cases h : addMsg ops reg m x <;> simp [iterAdd, h]
  | succ j ih =>
    intro reg m x
    cases h : addMsg ops reg m x with
    | none => simp [iterAdd, h]
    | some reg' =>
      have h1 : iterAdd ops (j + 1 + 1) reg m x = iterAdd ops (j + 1) reg' m x := by
        rw [show iterAdd ops (j + 1 + 1) reg m x =
              (addMsg ops reg m x).bind (fun r => iterAdd ops (j + 1) r m x) from rfl,
            h]
        rfl
      rw [h1, ih reg' m x]
      exact addMsg_idem ops Hidem h

theorem addMsg_mono {μ κ ρ : Type} [DecidableEq κ] (ops : TrackerOps μ κ ρ)
    (Hmono : ∀ r x, (ops.voters r).card ≤ (ops.voters (ops.addVoter r x)).card)
    {reg reg' : Registry κ ρ} {m : μ} {x : Voter}
    (h : addMsg ops reg m x = some reg') (k : κ) (r : ρ) (hk : reg k = some r) :
    ∃ r', reg' k = some r' ∧ (ops.voters r).card ≤ (ops.voters r').card := by
  cases hm : reg (ops.getKey m) with
  | some r0 =>
    have h' : reg' = updateReg reg (ops.getKey m) (ops.addVoter r0 x) := by
      rw [addMsg, hm] at h
      exact (Option.some.inj h).symm
    subst h'
    by_cases hkey : k = ops.getKey m
    · subst hkey
      rw [hk] at hm
      cases Option.some.inj hm
      exact ⟨ops.addVoter r x, updateReg_self _ _ _, Hmono r x⟩
    · exact ⟨r, by rw [updateReg_ne _ _ _ _ hkey]; exact hk, le_refl _⟩
  | none =>
    cases hn : ops.newVoteMsg m with
    | none =>
      rw [addMsg, hm, hn] at h
      exact absurd h (by simp)
    | some r0 =>
      have h' : reg' = updateReg reg (ops.getKey m) (ops.addVoter r0 x) := by
        rw [addMsg, hm, hn] at h
        exact (Option.some.inj h).symm
      subst h'
      have hkey : k ≠ ops.getKey m := by
        intro habs
        rw [habs, hm] at hk
        cases hk
      exact ⟨r, by rw [updateReg_ne _ _ _ _ hkey]; exact hk, le_refl _⟩

theorem applySeq_mono {μ κ ρ : Type} [DecidableEq κ] (ops : TrackerOps μ κ ρ)
    (Hmono : ∀ r x, (ops.voters r).card ≤ (ops.voters (ops.addVoter r x)).card) :
    ∀ (l : List (μ × Voter)) (reg reg' : Registry κ ρ),
      applySeq ops reg l = some reg' →
      ∀ k r, reg k = some r →
        ∃ r', reg' k = some r' ∧ (ops.voters r).card ≤ (ops.voters r').card := by
  intro l
  induction l with
  | nil =>
    intro reg reg' h k r hk
    cases Option.some.inj h
    exact ⟨r, hk, le_refl _⟩
  | cons p rest ih =>
    intro reg reg' h k r hk
    obtain ⟨m, x⟩ := p
    cases hm : addMsg ops reg m x with
    | none =>
      rw [applySeq, hm] at h
      exact absurd h (by simp)
    | some reg1 =>
      have h2 : applySeq ops reg1 rest = some reg' := by
        rw [applySeq, hm] at h
        exact h
      obtain ⟨r1, hr1, hc1⟩ := addMsg_mono ops Hmono hm k r hk
      obtain ⟨r', hr', hc'⟩ := ih reg1 reg' h2 k r1 hr1
      exact ⟨r', hr', le_trans hc1 hc'⟩

theorem hasEnoughVotes_mono {μ κ ρ : Type} [DecidableEq κ] (ops : TrackerOps μ κ ρ)
    (Hmono : ∀ r x, (ops.voters r).card ≤ (ops.voters (ops.addVoter r x)).card)
    (l : List (μ × Voter)) (reg reg' : Registry κ ρ) (m : μ) (count : Nat)
    (hq : hasEnoughVotes ops reg m count = true)
    (h : applySeq ops reg l = some reg') :
    hasEnoughVotes ops reg' m count = true := by
  rcases (hasEnoughVotes_iff ops reg m count).mp hq with ⟨r, hr, hc⟩
  obtain ⟨r', hr', hc'⟩ := applySeq_mono ops Hmono l reg reg' h (ops.getKey m) r hr
  exact (hasEnoughVotes_iff ops reg' m count).mpr ⟨r', hr', le_trans hc hc'⟩

theorem addMsg_some {μ κ ρ : Type} [DecidableEq κ] (ops : TrackerOps μ κ ρ)
    {reg reg' : Registry κ ρ} {m : μ} {x : Voter}
    (h : addMsg ops reg m x = some reg') :
    ∃ rec, reg' = updateReg reg (ops.getKey m) rec := by
  cases hm : reg (ops.getKey m) with
  | some r =>
    rw [addMsg, hm] at h
    exact ⟨ops.addVoter r x, (Option.some.inj h).symm⟩
  | none =>
    cases hn : ops.newVoteMsg m with
    | none =>
      rw [addMsg, hm, hn] at h
      exact absurd h (by simp)
    | some r0 =>
      rw [addMsg, hm, hn] at h
      exact ⟨ops.addVoter r0 x, (Option.some.inj h).symm⟩

theorem addMsg_record_cases {μ κ ρ : Type} [DecidableEq κ] (ops : TrackerOps μ κ ρ)
    {reg reg' : Registry κ ρ} {m : μ} {x : Voter}
    (h : addMsg ops reg m x = some reg') (k : κ) (r : ρ) (hk : reg' k = some r) :
    (k = ops.getKey m ∧ ∃ r0, r = ops.addVoter r0 x ∧
      (reg k = some r0 ∨ (reg k = none ∧ ops.newVoteMsg m = some r0)))
    ∨ reg k = some r := by
  cases hm : reg (ops.getKey m) with
  | some r0 =>
    have h' : reg' = updateReg reg (ops.getKey m) (ops.addVoter r0 x) := by
      rw [addMsg, hm] at h
      exact (Option.some.inj h).symm
    subst h'
    by_cases hkey : k = ops.getKey m
    · subst hkey
      rw [updateReg_self] at hk
      exact Or.inl ⟨rfl, r0, (Option.some.inj hk).symm, Or.inl hm⟩
    · rw [updateReg_ne _ _ _ _ hkey] at hk
      exact Or.inr hk
  | none =>
    cases hn : ops.newVoteMsg m with
    | none =>
      rw [addMsg, hm, hn] at h
      exact absurd h (by simp)
    | some r0 =>
      have h' : reg' = updateReg reg (ops.getKey m) (ops.addVoter r0 x) := by
        rw [addMsg, hm, hn] at h
        exact (Option.some.inj h).symm
      subst h'
      by_cases hkey : k = ops.getKey m
      · subst hkey
        rw [updateReg_self] at hk
        exact Or.inl ⟨rfl, r0, (Option.some.inj hk).symm, Or.inr ⟨hm, rfl⟩⟩
      · rw [updateReg_ne _ _ _ _ hkey] at hk
        exact Or.inr hk

theorem reachable_records_nonempty {μ κ ρ : Type} [DecidableEq κ]
    (ops : TrackerOps μ κ ρ)
    (Hne : ∀ (r : ρ) (x : Voter), 1 ≤ (ops.voters (ops.addVoter r x)).card) :
    ∀ reg, ReachableAdd ops reg →
      ∀ k r, reg k = some r → 1 ≤ (ops.voters r).card := by
  intro reg hreach
  induction hreach with
  | empty =>
    intro k r hk
    cases hk
  | add hprev hstep ih =>
    intro k r hk
    rcases addMsg_record_cases ops hstep k r hk with ⟨_, r0, rfl, _⟩ | hold
    · exact Hne r0 _
    · exact ih k r hold

theorem hasEnoughVotes_one_of_inv {μ κ ρ : Type} [DecidableEq κ]
    (ops : TrackerOps μ κ ρ) (reg : Registry κ ρ)
    (hinv : ∀ k r, reg k = some r → 1 ≤ (ops.voters r).card) (m : μ)
    (h : hasMsg ops reg m = true) : hasEnoughVotes ops reg m 1 = true := by
  rcases Option.isSome_iff_exists.mp (show (reg (ops.getKey m)).isSome = true from h)
    with ⟨r, hr⟩
  exact (hasEnoughVotes_iff ops reg m 1).mpr ⟨r, hr, hinv _ r hr⟩

theorem ic_addVoter_viewNo (r : InsChgVotes) (x : Voter) :
    (InstanceChanges.ops.addVoter r x).viewNo = r.viewNo := rfl

theorem ic_newVoteMsg_viewNo {m : ICInput} {r0 : InsChgVotes}
    (h : InstanceChanges.ops.newVoteMsg m = some r0) :
    r0.viewNo = InstanceChanges.ops.getKey m := by
  cases m with
  | raw v =>
    simp [InstanceChanges.ops] at h
  | msg mm =>
    simp [InstanceChanges.ops] at h
    rw [← h]
    rfl

theorem icreachable_records_nonempty :
    ∀ reg, ICReachable reg →
      ∀ (k : Int) (r : InsChgVotes), reg k = some r → 1 ≤ r.voters.card := by
  intro reg hreach
  induction hreach with
  | empty =>
    intro k r hk
    cases hk
  | add hprev hstep ih =>
    intro k r hk
    rcases addMsg_record_cases InstanceChanges.ops hstep k r hk with
      ⟨_, r0, rfl, _⟩ | hold
    · exact Finset.card_pos.mpr (Finset.insert_nonempty _ _)
    · exact ih k r hold
  | pop v hprev ih =>
    intro k r hk
    by_cases hkv : k = v
    · subst hkv
      simp [InstanceChanges.pop] at hk
    · simp only [InstanceChanges.pop, if_neg hkv] at hk
      exact ih k r hk

theorem queries_congr {μ κ ρ : Type} [DecidableEq κ] (ops : TrackerOps μ κ ρ)
    (reg reg' : Registry κ ρ) (m : μ)
    (h : reg' (ops.getKey m) = reg (ops.getKey m)) :
    hasMsg ops reg' m = hasMsg ops reg m ∧
    (∀ voter, hasVote ops reg' m voter = hasVote ops reg m voter) ∧
    (∀ count, hasEnoughVotes ops reg' m count = hasEnoughVotes ops reg m count) := by
  refine ⟨?_, ?_, ?_⟩ <;> simp [hasMsg, hasVote, hasEnoughVotes, h]

/-! ### Claim theorems -/

/-- C1: for every `Prepares` state, PREPARE message and f ≥ 0,
`hasQuorum(m, f)` is true iff a record exists for key
`(m.viewNo, m.ppSeqNo)` and its voter-set size is at least `2 * f`;
in particular for `f = 1`, with exactly 1 distinct voter `hasQuorum`
is false and with exactly 2 it is true. -/
theorem prepares_hasQuorum_spec :
    (∀ (reg : Registry (Int × Int) ThreePhaseVotes) (p : Prepare) (f : Nat),
      Prepares.hasQuorum reg p f = true ↔
        ∃ r, reg (p.viewNo, p.ppSeqNo) = some r ∧ 2 * f ≤ r.voters.card)
    ∧ (∀ (reg : Registry (Int × Int) ThreePhaseVotes) (p : Prepare)
        (r : ThreePhaseVotes), reg (p.viewNo, p.ppSeqNo) = some r →
        (r.voters.card = 1 → Prepares.hasQuorum reg p 1 = false) ∧
        (r.voters.card = 2 → Prepares.hasQuorum reg p 1 = true)) := by
  have key : ∀ (reg : Registry (Int × Int) ThreePhaseVotes) (p : Prepare) (f : Nat),
      Prepares.hasQuorum reg p f = true ↔
        ∃ r, reg (p.viewNo, p.ppSeqNo) = some r ∧ 2 * f ≤ r.voters.card := by
    intro reg p f
    rw [Prepares.hasQuorum, hasEnoughVotes_iff]
    exact Iff.rfl
  refine ⟨key, ?_⟩
  intro reg p r h
  constructor
  · intro hc
    rw [← Bool.not_eq_true]
    intro habs
    rcases (key reg p 1).mp habs with ⟨r', hr', hcard⟩
    rw [h] at hr'
    cases hr'
    omega
  · intro hc
    exact (key reg p 1).mpr ⟨r, h, by omega⟩

/-- C1 witness: at concrete states, one voter gives no Prepare quorum at
`f = 1` and two voters do. -/
theorem prepares_hasQuorum_spec_witness :
    Prepares.hasQuorum sampleP2 ⟨1, 5⟩ 1 = true ∧
    Prepares.hasQuorum sampleP1 ⟨1, 5⟩ 1 = false := by
  constructor
  · exact (prepares_hasQuorum_spec.2 sampleP2 ⟨1, 5⟩ ⟨{"A", "B"}⟩
      (by decide)).2 (by decide)
  · exact (prepares_hasQuorum_spec.2 sampleP1 ⟨1, 5⟩ ⟨{"A"}⟩
      (by decide)).1 (by decide)

/-- C2: for every `Commits` state and COMMIT message, and every
`InstanceChanges` state and key input, `hasQuorum(·, f)` is true iff a
record exists for the derived key and its voter-set size is at least
`2 * f + 1`; for `f = 1`, 2 distinct voters give false and exactly 3
give true. -/
theorem commits_instchg_hasQuorum_spec :
    (∀ (reg : Registry (Int × Int) ThreePhaseVotes) (c : Commit) (f : Nat),
      Commits.hasQuorum reg c f = true ↔
        ∃ r, reg (c.viewNo, c.ppSeqNo) = some r ∧ 2 * f + 1 ≤ r.voters.card)
    ∧ (∀ (reg : Registry (Int × Int) ThreePhaseVotes) (c : Commit)
        (r : ThreePhaseVotes), reg (c.viewNo, c.ppSeqNo) = some r →
        (r.voters.card = 2 → Commits.hasQuorum reg c 1 = false) ∧
        (r.voters.card = 3 → Commits.hasQuorum reg c 1 = true))
    ∧ (∀ (reg : Registry Int InsChgVotes) (m : ICInput) (f : Nat),
      InstanceChanges.hasQuorum reg m f = true ↔
        ∃ r, reg (InstanceChanges.ops.getKey m) = some r ∧
          2 * f + 1 ≤ r.voters.card)
    ∧ (∀ (reg : Registry Int InsChgVotes) (m : ICInput) (r : InsChgVotes),
        reg (InstanceChanges.ops.getKey m) = some r →
        (r.voters.card = 2 → InstanceChanges.hasQuorum reg m 1 = false) ∧
        (r.voters.card = 3 → InstanceChanges.hasQuorum reg m 1 = true)) := by
  have keyC : ∀ (reg : Registry (Int × Int) ThreePhaseVotes) (c : Commit) (f : Nat),
      Commits.hasQuorum reg c f = true ↔
        ∃ r, reg (c.viewNo, c.ppSeqNo) = some r ∧ 2 * f + 1 ≤ r.voters.card := by
    intro reg c f
    rw [Commits.hasQuorum, hasEnoughVotes_iff]
    exact Iff.rfl
  have keyI : ∀ (reg : Registry Int InsChgVotes) (m : ICInput) (f : Nat),
      InstanceChanges.hasQuorum reg m f = true ↔
        ∃ r, reg (InstanceChanges.ops.getKey m) = some r ∧
          2 * f + 1 ≤ r.voters.card := by
    intro reg m f
    rw [InstanceChanges.hasQuorum, hasEnoughVotes_iff]
    exact Iff.rfl
  refine ⟨keyC, ?_, keyI, ?_⟩
  · intro reg c r h
    constructor
    · intro hc
      rw [← Bool.not_eq_true]
      intro habs
      rcases (keyC reg c 1).mp habs with ⟨r', hr', hcard⟩
      rw [h] at hr'
      cases hr'
      omega
    · intro hc
      exact (keyC reg c 1).mpr ⟨r, h, by omega⟩
  · intro reg m r h
    constructor
    · intro hc
      rw [← Bool.not_eq_true]
      intro habs
      rcases (keyI reg m 1).mp habs with ⟨r', hr', hcard⟩
      rw [h] at hr'
      cases hr'
      omega
    · intro hc
      exact (keyI reg m 1).mpr ⟨r, h, by omega⟩

/-- C2 witness: at concrete states, 2 voters give no Commit or
instance-change quorum at `f = 1` and 3 voters do. -/
theorem commits_instchg_hasQuorum_spec_witness :
    Commits.hasQuorum sampleP3 ⟨1, 5⟩ 1 = true ∧
    Commits.hasQuorum sampleP2 ⟨1, 5⟩ 1 = false ∧
    InstanceChanges.hasQuorum sampleIC3 (.raw 7) 1 = true ∧
    InstanceChanges.hasQuorum sampleIC2 (.raw 7) 1 = false := by
  refine ⟨?_, ?_, ?_, ?_⟩
  · exact (commits_instchg_hasQuorum_spec.2.1 sampleP3 ⟨1, 5⟩ ⟨{"A", "B", "C"}⟩
      (by decide)).2 (by decide)
  · exact (commits_instchg_hasQuorum_spec.2.1 sampleP2 ⟨1, 5⟩ ⟨{"A", "B"}⟩
      (by decide)).1 (by decide)
  · exact (commits_instchg_hasQuorum_spec.2.2.2 sampleIC3 (.raw 7)
      ⟨7, {"A", "B", "C"}⟩ (by decide)).2 (by decide)
  · exact (commits_instchg_hasQuorum_spec.2.2.2 sampleIC2 (.raw 7)
      ⟨7, {"A", "B"}⟩ (by decide)).1 (by decide)

/-- C3 counterexample: on the empty registry, `addVote` with the raw
view-number `0` raises (`newVoteMsg` reads `.viewNo` off an `int`,
embedded as `none`), while `addVote` with a message whose `viewNo` is `0`
succeeds — so the two input forms do not have the same result and state
effect for every operation. -/
theorem instchg_dual_input_cex :
    InstanceChanges.addVote emptyReg (.raw 0) "A" = none ∧
    (InstanceChanges.addVote emptyReg (.msg ⟨0⟩) "A").isSome = true :=
  ⟨rfl, rfl⟩

/-- C3 (amended): both input forms resolve to the same key, and all
queries (`hasView`, `hasInstChngFrom`, `hasQuorum`) give identical
results for a raw view-number and for a message carrying it; `addVote`
behaves identically for both forms whenever a record for the view is
already present, but on an absent key the raw form raises while the
message form creates a fresh record. -/
theorem instchg_dual_input :
    (∀ v : Int, InstanceChanges.ops.getKey (.raw v) =
      InstanceChanges.ops.getKey (.msg ⟨v⟩))
    ∧ (∀ (reg : Registry Int InsChgVotes) (v : Int),
        InstanceChanges.hasView reg (.raw v) =
          InstanceChanges.hasView reg (.msg ⟨v⟩))
    ∧ (∀ (reg : Registry Int InsChgVotes) (v : Int) (voter : Voter),
        InstanceChanges.hasInstChngFrom reg (.raw v) voter =
          InstanceChanges.hasInstChngFrom reg (.msg ⟨v⟩) voter)
    ∧ (∀ (reg : Registry Int InsChgVotes) (v : Int) (f : Nat),
        InstanceChanges.hasQuorum reg (.raw v) f =
          InstanceChanges.hasQuorum reg (.msg ⟨v⟩) f)
    ∧ (∀ (reg : Registry Int InsChgVotes) (v : Int) (voter : Voter),
        (reg v).isSome = true →
        InstanceChanges.addVote reg (.raw v) voter =
          InstanceChanges.addVote reg (.msg ⟨v⟩) voter)
    ∧ (∀ (reg : Registry Int InsChgVotes) (v : Int) (voter : Voter),
        reg v = none →
        InstanceChanges.addVote reg (.raw v) voter = none ∧
        (InstanceChanges.addVote reg (.msg ⟨v⟩) voter).isSome = true) := by
  refine ⟨fun v => rfl, fun reg v => rfl, fun reg v voter => rfl,
    fun reg v f => rfl, ?_, ?_⟩
  · intro reg v voter h
    rcases Option.isSome_iff_exists.mp h with ⟨r, hr⟩
    show addMsg InstanceChanges.ops reg (.raw v) voter =
      addMsg InstanceChanges.ops reg (.msg ⟨v⟩) voter
    rw [addMsg, addMsg]
    have hraw : reg (InstanceChanges.ops.getKey (.raw v)) = some r := hr
    have hmsg : reg (InstanceChanges.ops.getKey (.msg ⟨v⟩)) = some r := hr
    rw [hraw, hmsg]
    rfl
  · intro reg v voter h
    constructor
    · show addMsg InstanceChanges.ops reg (.raw v) voter = none
      rw [addMsg]
      have hraw : reg (InstanceChanges.ops.getKey (.raw v)) = none := h
      rw [hraw]
      rfl
    · show (addMsg InstanceChanges.ops reg (.msg ⟨v⟩) voter).isSome = true
      rw [addMsg]
      have hmsg : reg (InstanceChanges.ops.getKey (.msg ⟨v⟩)) = none := h
      rw [hmsg]
      rfl

/-- C3 witness: on a registry holding a record for view `7`, `addVote`
by raw number and by message agree; on the empty registry the raw form
raises while the message form succeeds. -/
theorem instchg_dual_input_witness :
    (InstanceChanges.addVote sampleIC2 (.raw 7) "C" =
      InstanceChanges.addVote sampleIC2 (.msg ⟨7⟩) "C") ∧
    (InstanceChanges.addVote emptyReg (.raw 3) "A" = none ∧
      (InstanceChanges.addVote emptyReg (.msg ⟨3⟩) "A").isSome = true) :=
  ⟨instchg_dual_input.2.2.2.2.1 sampleIC2 7 "C" (by decide),
   instchg_dual_input.2.2.2.2.2 emptyReg 3 "A" rfl⟩

/-- C4: for each tracker, applying `addVote` for the same message and
voter `n ≥ 1` times in sequence yields exactly the same result (state
included) as applying it once; in particular a repeated call raises no
error and leaves the voter set unchanged. -/
theorem addVote_idempotent :
    (∀ n : Nat, 1 ≤ n → ∀ (reg : Registry (Int × Int) ThreePhaseVotes)
        (p : Prepare) (x : Voter),
        iterAdd Prepares.ops n reg p x = Prepares.addVote reg p x)
    ∧ (∀ n : Nat, 1 ≤ n → ∀ (reg : Registry (Int × Int) ThreePhaseVotes)
        (c : Commit) (x : Voter),
        iterAdd Commits.ops n reg c x = Commits.addVote reg c x)
    ∧ (∀ n : Nat, 1 ≤ n → ∀ (reg : Registry Int InsChgVotes)
        (m : ICInput) (x : Voter),
        iterAdd InstanceChanges.ops n reg m x = InstanceChanges.addVote reg m x) := by
  have hP : ∀ (r : ThreePhaseVotes) (x : Voter),
      Prepares.ops.addVoter (Prepares.ops.addVoter r x) x =
        Prepares.ops.addVoter r x := by
    intro r x
    simp [Prepares.ops]
  have hC : ∀ (r : ThreePhaseVotes) (x : Voter),
      Commits.ops.addVoter (Commits.ops.addVoter r x) x =
        Commits.ops.addVoter r x := by
    intro r x
    simp [Commits.ops]
  have hI : ∀ (r : InsChgVotes) (x : Voter),
      InstanceChanges.ops.addVoter (InstanceChanges.ops.addVoter r x) x =
        InstanceChanges.ops.addVoter r x := by
    intro r x
    simp [InstanceChanges.ops]
  refine ⟨?_, ?_, ?_⟩
  · intro n hn reg p x
    obtain ⟨k, rfl⟩ : ∃ k, n = k + 1 := ⟨n - 1, by omega⟩
    exact iterAdd_succ Prepares.ops hP k reg p x
  · intro n hn reg c x
    obtain ⟨k, rfl⟩ : ∃ k, n = k + 1 := ⟨n - 1, by omega⟩
    exact iterAdd_succ Commits.ops hC k reg c x
  · intro n hn reg m x
    obtain ⟨k, rfl⟩ : ∃ k, n = k + 1 := ⟨n - 1, by omega⟩
    exact iterAdd_succ InstanceChanges.ops hI k reg m x

/-- C4 witness: three consecutive identical `addVote` calls on the empty
`Prepares` registry equal a single call. -/
theorem addVote_idempotent_witness :
    1 ≤ 3 ∧
    iterAdd Prepares.ops 3 emptyReg ⟨1, 5⟩ "A" =
      Prepares.addVote emptyReg ⟨1, 5⟩ "A" :=
  ⟨by decide, addVote_idempotent.1 3 (by decide) emptyReg ⟨1, 5⟩ "A"⟩

/-- C5: for the `Prepares` and `Commits` trackers, once `hasQuorum` is
true for a message it remains true after any further sequence of
`addVote` operations, on any keys and from any voters. -/
theorem quorum_monotone :
    (∀ (reg reg' : Registry (Int × Int) ThreePhaseVotes) (p : Prepare)
        (f : Nat) (l : List (Prepare × Voter)),
        Prepares.hasQuorum reg p f = true →
        applySeq Prepares.ops reg l = some reg' →
        Prepares.hasQuorum reg' p f = true)
    ∧ (∀ (reg reg' : Registry (Int × Int) ThreePhaseVotes) (c : Commit)
        (f : Nat) (l : List (Commit × Voter)),
        Commits.hasQuorum reg c f = true →
        applySeq Commits.ops reg l = some reg' →
        Commits.hasQuorum reg' c f = true) := by
  have hP : ∀ (r : ThreePhaseVotes) (x : Voter),
      (Prepares.ops.voters r).card ≤
        (Prepares.ops.voters (Prepares.ops.addVoter r x)).card := by
    intro r x
    exact Finset.card_le_card (Finset.subset_insert x r.voters)
  have hC : ∀ (r : ThreePhaseVotes) (x : Voter),
      (Commits.ops.voters r).card ≤
        (Commits.ops.voters (Commits.ops.addVoter r x)).card := by
    intro r x
    exact Finset.card_le_card (Finset.subset_insert x r.voters)
  constructor
  · intro reg reg' p f l hq h
    exact hasEnoughVotes_mono Prepares.ops hP l reg reg' p (2 * f) hq h
  · intro reg reg' c f l hq h
    exact hasEnoughVotes_mono Commits.ops hC l reg reg' c (2 * f + 1) hq h

/-- C5 witness: a Prepare quorum at `(1, 5)` with `f = 1` survives a
further vote on the unrelated key `(2, 9)`. -/
theorem quorum_monotone_witness :
    Prepares.hasQuorum sampleP2 ⟨1, 5⟩ 1 = true ∧
    applySeq Prepares.ops sampleP2 [(⟨2, 9⟩, "C")] = some sampleP2' ∧
    Prepares.hasQuorum sampleP2' ⟨1, 5⟩ 1 = true :=
  ⟨by decide, rfl,
   quorum_monotone.1 sampleP2 sampleP2' ⟨1, 5⟩ 1 [(⟨2, 9⟩, "C")] (by decide) rfl⟩

/-- C6: after `pop` (discard) of a view, `hasView` for it is false; a
subsequent `addVote` for that view creates a fresh record holding only
the new voter; `pop` of an absent view is a no-op and not an error; and
`pop` never touches the records of other views. -/
theorem instchg_discard_spec :
    (∀ (reg : Registry Int InsChgVotes) (v : Int),
        InstanceChanges.hasView (InstanceChanges.pop reg v) (.raw v) = false)
    ∧ (∀ (reg : Registry Int InsChgVotes) (v : Int) (voter : Voter)
          (reg'' : Registry Int InsChgVotes),
        InstanceChanges.addVote (InstanceChanges.pop reg v) (.msg ⟨v⟩) voter =
          some reg'' →
        reg'' v = some ⟨v, {voter}⟩)
    ∧ (∀ (reg : Registry Int InsChgVotes) (v : Int),
        reg v = none → InstanceChanges.pop reg v = reg)
    ∧ (∀ (reg : Registry Int InsChgVotes) (v k : Int),
        k ≠ v → InstanceChanges.pop reg v k = reg k) := by
  refine ⟨?_, ?_, ?_, ?_⟩
  · intro reg v
    simp [InstanceChanges.hasView, hasMsg, InstanceChanges.pop,
      InstanceChanges.ops]
  · intro reg v voter reg'' h
    have hnone : (InstanceChanges.pop reg v)
        (InstanceChanges.ops.getKey (.msg ⟨v⟩)) = none := by
      show (InstanceChanges.pop reg v) v = none
      simp [InstanceChanges.pop]
    rw [show InstanceChanges.addVote (InstanceChanges.pop reg v) (.msg ⟨v⟩) voter =
          addMsg InstanceChanges.ops (InstanceChanges.pop reg v) (.msg ⟨v⟩) voter
        from rfl, addMsg, hnone] at h
    have h' : reg'' = updateReg (InstanceChanges.pop reg v) v
        ⟨v, insert voter ∅⟩ := (Option.some.inj h).symm
    subst h'
    rw [updateReg_self]
    simp
  · intro reg v h
    funext k
    by_cases hk : k = v
    · subst hk
      simp [InstanceChanges.pop, h]
    · simp [InstanceChanges.pop, hk]
  · intro reg v k hk
    simp [InstanceChanges.pop, hk]

/-- C6 witness: concrete discard behaviour on a registry holding two
voters for view `7`. -/
theorem instchg_discard_spec_witness :
    InstanceChanges.hasView (InstanceChanges.pop sampleIC2 7) (.raw 7) = false ∧
    sampleIC2popAdd 7 = some ⟨7, {"Z"}⟩ ∧
    InstanceChanges.pop emptyReg 7 = emptyReg ∧
    InstanceChanges.pop sampleIC2 7 3 = sampleIC2 3 :=
  ⟨instchg_discard_spec.1 sampleIC2 7,
   instchg_discard_spec.2.1 sampleIC2 7 "Z" sampleIC2popAdd rfl,
   instchg_discard_spec.2.2.1 emptyReg 7 rfl,
   instchg_discard_spec.2.2.2 sampleIC2 7 3 (by decide)⟩

/-- C7: for any tracker, a key with no record makes `hasMsg`
(has-record), `hasVote` (has-vote-from) and `hasEnoughVotes` all return
`false` — for every required count, including 0 — and no exception is
raised (the embedding is total; queries take the state and return only a
Bool, so they cannot modify it). -/
theorem absent_key_queries_false :
    ∀ (σ τ υ : Type) [inst : DecidableEq τ] (ops : TrackerOps σ τ υ)
      (reg : Registry τ υ) (m : σ) (voter : Voter) (count : Nat),
      reg (ops.getKey m) = none →
      hasMsg ops reg m = false ∧
      hasVote ops reg m voter = false ∧
      hasEnoughVotes ops reg m count = false := by
  intro σ τ υ inst ops reg m voter count h
  refine ⟨?_, ?_, ?_⟩ <;> simp [hasMsg, hasVote, hasEnoughVotes, h]

/-- C7 witness: on the empty `InstanceChanges` registry, all queries for
view `0` return false, even with a required count of 0. -/
theorem absent_key_queries_false_witness :
    hasMsg InstanceChanges.ops emptyReg (.raw 0) = false ∧
    hasVote InstanceChanges.ops emptyReg (.raw 0) "A" = false ∧
    hasEnoughVotes InstanceChanges.ops emptyReg (.raw 0) 0 = false :=
  absent_key_queries_false ICInput Int InsChgVotes InstanceChanges.ops
    emptyReg (.raw 0) "A" 0 rfl

/-- C8: key isolation — `addMsg` for a message with key `k` leaves the
record and all query results for every other key unchanged; in
particular a Prepare vote under one `(view, seq)` key does not change
`hasQuorum` under a different key. -/
theorem addMsg_frame :
    (∀ (σ τ υ : Type) [inst : DecidableEq τ] (ops : TrackerOps σ τ υ)
        (reg reg' : Registry τ υ) (m m' : σ) (x voter : Voter) (count : Nat),
        addMsg ops reg m x = some reg' →
        ops.getKey m' ≠ ops.getKey m →
        reg' (ops.getKey m') = reg (ops.getKey m') ∧
        hasMsg ops reg' m' = hasMsg ops reg m' ∧
        hasVote ops reg' m' voter = hasVote ops reg m' voter ∧
        hasEnoughVotes ops reg' m' count = hasEnoughVotes ops reg m' count)
    ∧ (∀ (reg reg' : Registry (Int × Int) ThreePhaseVotes) (p p' : Prepare)
        (x : Voter) (f : Nat),
        Prepares.addVote reg p x = some reg' →
        (p'.viewNo, p'.ppSeqNo) ≠ (p.viewNo, p.ppSeqNo) →
        Prepares.hasQuorum reg' p' f = Prepares.hasQuorum reg p' f) := by
  have main : ∀ (σ τ υ : Type) [inst : DecidableEq τ] (ops : TrackerOps σ τ υ)
      (reg reg' : Registry τ υ) (m m' : σ) (x : Voter),
      addMsg ops reg m x = some reg' →
      ops.getKey m' ≠ ops.getKey m →
      reg' (ops.getKey m') = reg (ops.getKey m') := by
    intro σ τ υ inst ops reg reg' m m' x h hne
    obtain ⟨rec, rfl⟩ := addMsg_some ops h
    exact updateReg_ne _ _ _ _ hne
  constructor
  · intro σ τ υ inst ops reg reg' m m' x voter count h hne
    have hpt := main σ τ υ ops reg reg' m m' x h hne
    obtain ⟨h1, h2, h3⟩ := queries_congr ops reg reg' m' hpt
    exact ⟨hpt, h1, h2 voter, h3 count⟩
  · intro reg reg' p p' x f h hne
    have hpt := main Prepare (Int × Int) ThreePhaseVotes Prepares.ops
      reg reg' p p' x h hne
    exact (queries_congr Prepares.ops reg reg' p' hpt).2.2 (2 * f)

/-- C8 witness: a vote on key `(2, 9)` leaves the record and queries for
key `(1, 5)` unchanged. -/
theorem addMsg_frame_witness :
    sampleP2' (1, 5) = sampleP2 (1, 5) ∧
    hasMsg Prepares.ops sampleP2' ⟨1, 5⟩ = hasMsg Prepares.ops sampleP2 ⟨1, 5⟩ ∧
    hasVote Prepares.ops sampleP2' ⟨1, 5⟩ "A" =
      hasVote Prepares.ops sampleP2 ⟨1, 5⟩ "A" ∧
    hasEnoughVotes Prepares.ops sampleP2' ⟨1, 5⟩ 2 =
      hasEnoughVotes Prepares.ops sampleP2 ⟨1, 5⟩ 2 ∧
    Prepares.hasQuorum sampleP2' ⟨1, 5⟩ 1 = Prepares.hasQuorum sampleP2 ⟨1, 5⟩ 1 := by
  obtain ⟨h1, h2, h3, h4⟩ := addMsg_frame.1 Prepare (Int × Int) ThreePhaseVotes
    Prepares.ops sampleP2 sampleP2' ⟨2, 9⟩ ⟨1, 5⟩ "C" "A" 2 rfl (by decide)
  exact ⟨h1, h2, h3, h4,
    addMsg_frame.2 sampleP2 sampleP2' ⟨2, 9⟩ ⟨1, 5⟩ "C" 1 rfl (by decide)⟩

/-- C9: in every reachable state of each tracker, every key holding a
record has at least one voter; consequently a key with a record always
satisfies `hasEnoughVotes` for a required count of 1. -/
theorem records_nonempty :
    (∀ reg, ReachableAdd Prepares.ops reg →
      (∀ (k : Int × Int) (r : ThreePhaseVotes), reg k = some r →
        1 ≤ r.voters.card) ∧
      (∀ p : Prepare, hasMsg Prepares.ops reg p = true →
        hasEnoughVotes Prepares.ops reg p 1 = true))
    ∧ (∀ reg, ReachableAdd Commits.ops reg →
      (∀ (k : Int × Int) (r : ThreePhaseVotes), reg k = some r →
        1 ≤ r.voters.card) ∧
      (∀ c : Commit, hasMsg Commits.ops reg c = true →
        hasEnoughVotes Commits.ops reg c 1 = true))
    ∧ (∀ reg, ICReachable reg →
      (∀ (k : Int) (r : InsChgVotes), reg k = some r → 1 ≤ r.voters.card) ∧
      (∀ m : ICInput, hasMsg InstanceChanges.ops reg m = true →
        hasEnoughVotes InstanceChanges.ops reg m 1 = true)) := by
  have hP : ∀ (r : ThreePhaseVotes) (x : Voter),
      1 ≤ (Prepares.ops.voters (Prepares.ops.addVoter r x)).card := by
    intro r x
    exact Finset.card_pos.mpr (Finset.insert_nonempty _ _)
  have hC : ∀ (r : ThreePhaseVotes) (x : Voter),
      1 ≤ (Commits.ops.voters (Commits.ops.addVoter r x)).card := by
    intro r x
    exact Finset.card_pos.mpr (Finset.insert_nonempty _ _)
  refine ⟨?_, ?_, ?_⟩
  · intro reg hreach
    have hinv := reachable_records_nonempty Prepares.ops hP reg hreach
    exact ⟨hinv, fun p hp => hasEnoughVotes_one_of_inv Prepares.ops reg hinv p hp⟩
  · intro reg hreach
    have hinv := reachable_records_nonempty Commits.ops hC reg hreach
    exact ⟨hinv, fun c hc => hasEnoughVotes_one_of_inv Commits.ops reg hinv c hc⟩
  · intro reg hreach
    have hinv := icreachable_records_nonempty reg hreach
    exact ⟨hinv, fun m hm => hasEnoughVotes_one_of_inv InstanceChanges.ops reg hinv m hm⟩

/-- C9 witness: the state after one Prepare vote is reachable, its only
record has one voter, and its key passes `hasEnoughVotes` at count 1. -/
theorem records_nonempty_witness :
    1 ≤ (ThreePhaseVotes.voters ⟨insert "A" ∅⟩).card ∧
    hasEnoughVotes Prepares.ops sampleP1' ⟨1, 5⟩ 1 = true := by
  have hreach : ReachableAdd Prepares.ops sampleP1' :=
    ReachableAdd.add (m := ⟨1, 5⟩) (x := "A") ReachableAdd.empty rfl
  exact ⟨(records_nonempty.1 sampleP1' hreach).1 (1, 5) ⟨insert "A" ∅⟩ (by decide),
    (records_nonempty.1 sampleP1' hreach).2 ⟨1, 5⟩ (by decide)⟩

/-- C10: in every reachable `InstanceChanges` state, every record's
`viewNo` field equals the view-number key it is filed under. -/
theorem instchg_record_viewNo_eq_key :
    ∀ reg, ICReachable reg → ∀ (k : Int) (r : InsChgVotes),
      reg k = some r → r.viewNo = k := by
  intro reg hreach
  induction hreach with
  | empty =>
    intro k r hk
    cases hk
  | @add reg1 reg1' m1 x1 hprev hstep ih =>
    intro k r hk
    rcases addMsg_record_cases InstanceChanges.ops hstep k r hk with
      ⟨hkey, r0, rfl, hsrc⟩ | hold
    · rw [ic_addVoter_viewNo]
      rcases hsrc with hsome | ⟨_, hnew⟩
      · exact ih k r0 hsome
      · rw [ic_newVoteMsg_viewNo hnew, hkey]
    · exact ih k r hold
  | pop v hprev ih =>
    intro k r hk
    by_cases hkv : k = v
    · subst hkv
      simp [InstanceChanges.pop] at hk
    · simp only [InstanceChanges.pop, if_neg hkv] at hk
      exact ih k r hk

/-- C10 witness: in the reachable state holding one instance-change vote
for view `7`, the stored record names view `7`. -/
theorem instchg_record_viewNo_eq_key_witness :
    (InsChgVotes.viewNo ⟨7, insert "A" ∅⟩) = 7 := by
  have hreach : ICReachable sampleIC1' :=
    ICReachable.add (m := .msg ⟨7⟩) (x := "A") ICReachable.empty rfl
  exact instchg_record_viewNo_eq_key sampleIC1' hreach 7 ⟨7, insert "A" ∅⟩ (by decide)

end Plenum
